import Mathlib

/-!
# Verification of the `ray_tracer_challenge` renderer core

A shallow embedding, in Lean 4, of the parts of the Rust ray tracer that the
specification claims talk about, together with theorems settling each claim.

Modelling conventions:

* `f64` values are modelled as exact rationals (`ℚ`).  The transcendental
  `f64` operations that the code uses (`sqrt`, `powf`, `tan`, `cos`, `sin`)
  have no exact rational counterpart, so functions using them take the
  operation as an explicit parameter (e.g. a `sq : ℚ → ℚ` argument standing
  for `f64::sqrt`), and rotation matrices take the already-evaluated
  cosine/sine entries as parameters.  None of the claims proved here depends
  on the value such a parameter returns.
* One claim (about `normalize` of the zero vector producing NaN) is about
  IEEE-754 special values themselves; for it a small dedicated float model
  `FP` with `nan` and infinities is used (see the `FloatModel` section).
* Rust references `&Shape` compared with `std::ptr::eq` are modelled as
  indices (`ℕ`) into the world's object list: two intersections reference
  the same object exactly when they carry the same index.
-/

namespace RayTracer

/-- `EQUALITY_EPSILON` from `lib.rs` / `tuples.rs` / `canvas.rs`: `0.00001`. -/
def EQUALITY_EPSILON : ℚ := 1 / 100000

/-- `SHADOW_EPSILON` from `intersections.rs`: `0.00001`. -/
def SHADOW_EPSILON : ℚ := 1 / 100000

/-- `PARALLEL_EPSILON` from `shapes/planes.rs`: `0.00001`. -/
def PARALLEL_EPSILON : ℚ := 1 / 100000

/-! ## Intersection equality (`impl PartialEq for Intersection`, intersections.rs)

An `Intersection` holds `t : f64` and `object : &Shape`.  Object references
are modelled by an identity number (`ℕ`); `std::ptr::eq` becomes equality of
identities.  The source is

    (self.t - other.t) < EQUALITY_EPSILON && std::ptr::eq(self.object, other.object)

note the missing `.abs()` on the difference. -/

/-- An intersection record: parameter value `t` and the identity of the hit
object (standing for the `&Shape` reference). -/
structure Isect where
  t : ℚ
  objId : ℕ
deriving DecidableEq, Repr

/-- `Intersection::eq` from intersections.rs, lines 19–23. -/
def intersectionEq (i₁ i₂ : Isect) : Bool :=
  decide (i₁.t - i₂.t < EQUALITY_EPSILON) && (i₁.objId == i₂.objId)

/-! ## `Intersections::new` and `Intersections::hit` (intersections.rs)

`Intersections::new` sorts the vector ascending by `t` (`sort_by` with
`f64::total_cmp`, a stable sort; on the exact rationals used here
`total_cmp` is the usual order, so a stable insertion sort models it).
`hit` binary-searches the sorted list for `t = 0.0`:

    match self.vec.binary_search_by(|probe| probe.t.total_cmp(&0.0)) {
        Ok(index) | Err(index) if index < self.vec.len() => Some(index),
        _ => None,
    }

For the `hit` algorithm only the `t` values matter, so it is modelled on a
`List ℚ` of `t` values (the full pipeline below applies it to the
`t`-projection of its intersection list). -/

/-- `Intersections::new`: sort ascending by `t` (stable). -/
def intersectionsNew (ts : List ℚ) : List ℚ :=
  ts.insertionSort (· ≤ ·)

/-- The loop of Rust's `slice::binary_search_by` specialised to the probe
`probe.total_cmp(&0.0)`: invariant `left ≤ right ≤ length`; returns
`Sum.inl mid` when an exact `0` was probed (Rust `Ok(mid)`) and
`Sum.inr left` when the loop ends (Rust `Err(left)`).  The probe index
`mid = left + size / 2` (with `size = right - left`) is written out inline;
`getD` is only ever used in bounds, matching Rust's `get_unchecked`. -/
def bsLoop (ts : List ℚ) (left right : ℕ) : ℕ ⊕ ℕ :=
  if _h : left < right then
    if ts.getD (left + (right - left) / 2) 0 < 0 then
      bsLoop ts (left + (right - left) / 2 + 1) right
    else if 0 < ts.getD (left + (right - left) / 2) 0 then
      bsLoop ts left (left + (right - left) / 2)
    else Sum.inl (left + (right - left) / 2)
  else Sum.inr left
termination_by right - left
decreasing_by
· omega
· omega

/-- `Intersections::hit` from intersections.rs, lines 36–45. -/
def Intersections.hit (ts : List ℚ) : Option ℕ :=
  if ts.isEmpty then none
  else
    match bsLoop ts 0 ts.length with
    | Sum.inl index => if index < ts.length then some index else none
    | Sum.inr index => if index < ts.length then some index else none

/-! ## The n1/n2 refraction walk of `HitInfo::prepare` (intersections.rs 101–127)

The loop keeps `first_index_by_object : HashMap<*const Shape, usize>` and
`containers : BTreeMap<usize, &Shape>`, always inserting into and removing
from both together, so `first_index_by_object` is exactly
`{objId ↦ firstIndex | (firstIndex, objId) ∈ containers}`.  The `BTreeMap`
iterates keys in increasing order and keys are inserted in strictly
increasing order, so it is modelled by a list of `(firstIndex, objId)` pairs
kept in insertion order: appending preserves sortedness and
`last_key_value` is the last element.  Refractive indices are looked up
from the object identity with a `refr : ℕ → ℚ` map (standing for
`object.material.refractive_index`). -/

/-- One iteration of the containment bookkeeping: re-encountering an object
already in `containers` removes its entry (the one keyed by its first
index), otherwise the object is inserted keyed by the current index. -/
def containersStep (cs : List (ℕ × ℕ)) (index o : ℕ) : List (ℕ × ℕ) :=
  if cs.any fun e => e.2 == o then cs.eraseP fun e => e.2 == o
  else cs ++ [(index, o)]

/-- `containers.last_key_value()` read of the refractive index, with the
initial value `1.0` kept when the map is empty. -/
def topRefractive (refr : ℕ → ℚ) (cs : List (ℕ × ℕ)) : ℚ :=
  match cs.getLast? with
  | some e => refr e.2
  | none => 1

/-- The `for (index, intersection) in intersections.iter().enumerate()` loop
of `HitInfo::prepare`, which breaks at `hit_index` after reading `n1`
(before updating `containers`) and `n2` (after updating it).  If the list
ends before `hit_index` is reached, `n1` and `n2` keep their initial `1.0`
(that path is dead in `prepare`, which bails out earlier on an invalid
index). -/
def n1n2Loop (refr : ℕ → ℚ) (hitIndex : ℕ) :
    List Isect → ℕ → List (ℕ × ℕ) → ℚ × ℚ
  | [], _, _ => (1, 1)
  | i :: rest, index, cs =>
    if index = hitIndex then
      (topRefractive refr cs, topRefractive refr (containersStep cs index i.objId))
    else
      n1n2Loop refr hitIndex rest (index + 1) (containersStep cs index i.objId)

/-- The `n1`/`n2` part of `HitInfo::prepare`: `intersections.get(hit_index)?`
makes the whole computation fail on an out-of-range hit index. -/
def prepareN1N2 (refr : ℕ → ℚ) (xs : List Isect) (hitIndex : ℕ) : Option (ℚ × ℚ) :=
  if hitIndex < xs.length then some (n1n2Loop refr hitIndex xs 0 []) else none

/-! The same walk in the specification's words: a containment *stack* of
object identities; entering an object pushes it, re-encountering the same
object (by identity) pops it; `n1` is the top-of-stack refractive index
before processing the hit intersection, `n2` after, with vacuum `1.0` when
the stack is empty. -/

/-- Spec wording: push on first encounter, pop (remove) on re-encounter
(membership by object identity). -/
def specStackStep (stack : List ℕ) (o : ℕ) : List ℕ :=
  if stack.any fun x => x == o then stack.eraseP fun x => x == o
  else stack ++ [o]

/-- Spec wording: the top-of-stack refractive index, or vacuum `1.0`. -/
def specTop (refr : ℕ → ℚ) (stack : List ℕ) : ℚ :=
  match stack.getLast? with
  | some o => refr o
  | none => 1

/-- Spec wording: walk a list of intersections over a containment stack. -/
def specWalk (stack : List ℕ) (xs : List Isect) : List ℕ :=
  xs.foldl (fun st i => specStackStep st i.objId) stack

/-- Spec wording of the refraction walk: fold the intersections before the
hit into a containment stack, read `n1` before processing the hit
intersection and `n2` after. -/
def specN1N2 (refr : ℕ → ℚ) (xs : List Isect) (hitIndex : ℕ) : ℚ × ℚ :=
  let before := specWalk [] (xs.take hitIndex)
  let after := specStackStep before ((xs.getD hitIndex ⟨0, 0⟩).objId)
  (specTop refr before, specTop refr after)

/-- The three nested glass spheres of the definitive containment-stack test
(refractive indices 1.5 / 2.0 / 2.5, identities 0 / 1 / 2). -/
def glassRefr : ℕ → ℚ := fun o =>
  if o = 0 then 3/2 else if o = 1 then 2 else if o = 2 then 5/2 else 1

/-- The six ordered intersections of the axis-aligned ray with the three
nested glass spheres (`t` values `2, 2.75, 3.25, 4.75, 5.25, 6`). -/
def glassXs : List Isect :=
  [⟨2, 0⟩, ⟨11/4, 1⟩, ⟨13/4, 2⟩, ⟨19/4, 1⟩, ⟨21/4, 2⟩, ⟨6, 0⟩]

/-! ## Tuple algebra (tuples.rs), rational model

`Point` and `Vector` wrap a 4-tuple with homogeneous weight 1 resp. 0; here
they are records of their three free coordinates.  `dot`, `cross` and
`reflect` are used by the renderer but absent from the retained snapshot of
`tuples.rs`; they are modelled from the spec (§4.1). -/

/-- A 3-dimensional point (homogeneous weight 1). -/
structure Pt where
  x : ℚ
  y : ℚ
  z : ℚ
deriving DecidableEq, Repr

/-- A 3-dimensional vector (homogeneous weight 0). -/
structure Vec where
  x : ℚ
  y : ℚ
  z : ℚ
deriving DecidableEq, Repr

/-- `Vector + Vector` (tuples.rs componentwise add, weight 0). -/
def Vec.add (a b : Vec) : Vec := ⟨a.x + b.x, a.y + b.y, a.z + b.z⟩

/-- `Vector - Vector`. -/
def Vec.sub (a b : Vec) : Vec := ⟨a.x - b.x, a.y - b.y, a.z - b.z⟩

/-- `-Vector`. -/
def Vec.neg (a : Vec) : Vec := ⟨-a.x, -a.y, -a.z⟩

/-- `Vector * f64`. -/
def Vec.smul (a : Vec) (s : ℚ) : Vec := ⟨a.x * s, a.y * s, a.z * s⟩

/-- `Point + Vector -> Point`. -/
def Pt.addVec (p : Pt) (v : Vec) : Pt := ⟨p.x + v.x, p.y + v.y, p.z + v.z⟩

/-- `Point - Point -> Vector`. -/
def Pt.sub (a b : Pt) : Vec := ⟨a.x - b.x, a.y - b.y, a.z - b.z⟩

/-- `Point - Vector -> Point`. -/
def Pt.subVec (p : Pt) (v : Vec) : Pt := ⟨p.x - v.x, p.y - v.y, p.z - v.z⟩

/-- Modelled from the spec: `dot(vector, vector) -> f64` (§4.1); the
implementation is missing from the retained snapshot of `tuples.rs`. -/
def Vec.dot (a b : Vec) : ℚ := a.x * b.x + a.y * b.y + a.z * b.z

/-- Modelled from the spec: `reflect(vector, normal) = v - normal*2*dot(v,normal)`
(§4.1); the implementation is missing from the retained snapshot of
`tuples.rs`. -/
def Vec.reflect (v n : Vec) : Vec := v.sub (n.smul (2 * v.dot n))

/-- `Tuple::magnitude` for a weight-0 tuple: `sqrt(x² + y² + z²)`.  The `f64`
square root is supplied as the parameter `sq`. -/
def Vec.magnitude (sq : ℚ → ℚ) (v : Vec) : ℚ := sq (v.x * v.x + v.y * v.y + v.z * v.z)

/-- `Tuple::normalize`: divide by the magnitude (`ℚ` division; the dedicated
IEEE model below is used for the zero-vector claim). -/
def Vec.normalize (sq : ℚ → ℚ) (v : Vec) : Vec :=
  ⟨v.x / v.magnitude sq, v.y / v.magnitude sq, v.z / v.magnitude sq⟩

/-! ## Colors (canvas.rs) -/

/-- `Color` (canvas.rs): red/green/blue channels. -/
structure Color where
  red : ℚ
  green : ℚ
  blue : ℚ
deriving DecidableEq, Repr

/-- `Color::default()`: all channels zero (`#[derive(Default)]`). -/
def Color.default : Color := ⟨0, 0, 0⟩

/-- `Color + Color`. -/
def Color.add (a b : Color) : Color := ⟨a.red + b.red, a.green + b.green, a.blue + b.blue⟩

/-- `Color * f64`. -/
def Color.smul (a : Color) (s : ℚ) : Color := ⟨a.red * s, a.green * s, a.blue * s⟩

/-- `Color * Color` (Hadamard product). -/
def Color.mul (a b : Color) : Color := ⟨a.red * b.red, a.green * b.green, a.blue * b.blue⟩

/-! ## Matrices (matrices.rs), rational model

`Matrix<M, N>` is `[[f64; N]; M]`; here an `M×M` matrix is a function of two
`Fin` indices.  The `submatrix` loops enumerate the rows with index `k ≠ i`
and the columns with index `l ≠ j` in increasing order; that enumeration is
tabulated by `skip3`/`skip4`.  The out-of-range `Err(MatrixIndexError)`
branch of `submatrix`/`minor`/`cofactor` cannot fire for `Fin`-valued
indices and is dropped. -/

/-- A 2×2 matrix of doubles. -/
def Mat2 := Fin 2 → Fin 2 → ℚ

/-- A 3×3 matrix of doubles. -/
def Mat3 := Fin 3 → Fin 3 → ℚ

/-- A 4×4 matrix of doubles. -/
def Mat4 := Fin 4 → Fin 4 → ℚ

/-- The increasing enumeration of the three row/column indices of a 4×4
matrix that differ from a given one (the `filter_map(... k != i ...)` of
`Matrix<4,4>::submatrix`). -/
def skip4 : Fin 4 → Fin 3 → Fin 4
  | 0, 0 => 1 | 0, 1 => 2 | 0, 2 => 3
  | 1, 0 => 0 | 1, 1 => 2 | 1, 2 => 3
  | 2, 0 => 0 | 2, 1 => 1 | 2, 2 => 3
  | 3, 0 => 0 | 3, 1 => 1 | 3, 2 => 2

/-- The increasing enumeration of the two row/column indices of a 3×3
matrix that differ from a given one (`Matrix<3,3>::submatrix`). -/
def skip3 : Fin 3 → Fin 2 → Fin 3
  | 0, 0 => 1 | 0, 1 => 2
  | 1, 0 => 0 | 1, 1 => 2
  | 2, 0 => 0 | 2, 1 => 1

/-- `Matrix<2,2>::submatrix(i, j)`: the 1×1 matrix `[[entries[1-i][1-j]]]`. -/
def submatrix2 (m : Mat2) (i j : Fin 2) : ℚ := m (1 - i) (1 - j)

/-- `Matrix<2,2>::minor`. -/
def minor2 (m : Mat2) (i j : Fin 2) : ℚ := submatrix2 m i j

/-- `Matrix<2,2>::cofactor`: the minor, negated when `i + j` is odd. -/
def cofactor2 (m : Mat2) (i j : Fin 2) : ℚ :=
  if (i.val + j.val) % 2 = 0 then minor2 m i j else -(minor2 m i j)

/-- `Matrix<2,2>::determinant`: expansion along row 0. -/
def det2 (m : Mat2) : ℚ := m 0 0 * cofactor2 m 0 0 + m 0 1 * cofactor2 m 0 1

/-- `Matrix<3,3>::submatrix(i, j)`. -/
def submatrix3 (m : Mat3) (i j : Fin 3) : Mat2 :=
  fun k l => m (skip3 i k) (skip3 j l)

/-- `Matrix<3,3>::minor`. -/
def minor3 (m : Mat3) (i j : Fin 3) : ℚ := det2 (submatrix3 m i j)

/-- `Matrix<3,3>::cofactor`. -/
def cofactor3 (m : Mat3) (i j : Fin 3) : ℚ :=
  if (i.val + j.val) % 2 = 0 then minor3 m i j else -(minor3 m i j)

/-- `Matrix<3,3>::determinant`: expansion along row 0. -/
def det3 (m : Mat3) : ℚ :=
  m 0 0 * cofactor3 m 0 0 + m 0 1 * cofactor3 m 0 1 + m 0 2 * cofactor3 m 0 2

/-- `Matrix<3,3>::transpose`. -/
def transpose3 (m : Mat3) : Mat3 := fun i j => m j i

/-- `Matrix<4,4>::submatrix(i, j)`. -/
def submatrix4 (m : Mat4) (i j : Fin 4) : Mat3 :=
  fun k l => m (skip4 i k) (skip4 j l)

/-- `Matrix<4,4>::minor`. -/
def minor4 (m : Mat4) (i j : Fin 4) : ℚ := det3 (submatrix4 m i j)

/-- `Matrix<4,4>::cofactor`. -/
def cofactor4 (m : Mat4) (i j : Fin 4) : ℚ :=
  if (i.val + j.val) % 2 = 0 then minor4 m i j else -(minor4 m i j)

/-- `Matrix<4,4>::determinant`: expansion along row 0. -/
def det4 (m : Mat4) : ℚ :=
  m 0 0 * cofactor4 m 0 0 + m 0 1 * cofactor4 m 0 1 +
    m 0 2 * cofactor4 m 0 2 + m 0 3 * cofactor4 m 0 3

/-- `Matrix<4,4>::inverse`: `None` exactly when `determinant == 0` (an exact
comparison in the source), otherwise the matrix of `cofactor(j, i) /
determinant`. -/
def inverse4 (m : Mat4) : Option Mat4 :=
  let determinant := det4 m
  if determinant = 0 then none
  else some fun i j => cofactor4 m j i / determinant

/-- `Matrix::<4,4>::identity()` / the `IDENTITY` transform constant: ones on
the diagonal of a zero matrix. -/
def identityM : Mat4 := fun i j => if i = j then 1 else 0

/-- `&Matrix<4,4> * &Matrix<4,4>`: entry `(i, j)` is `Σ_k self[i][k] *
rhs[k][j]`, the sum written out for `N = 4`. -/
def mul4 (a b : Mat4) : Mat4 := fun i j =>
  a i 0 * b 0 j + a i 1 * b 1 j + a i 2 * b 2 j + a i 3 * b 3 j

/-- `&Transform * Point`: multiply by the column `[[x],[y],[z],[1]]` and read
rows 0–2 of the result (`From<Matrix<4,1>> for Point`). -/
def mulPt (m : Mat4) (p : Pt) : Pt :=
  ⟨m 0 0 * p.x + m 0 1 * p.y + m 0 2 * p.z + m 0 3 * 1,
   m 1 0 * p.x + m 1 1 * p.y + m 1 2 * p.z + m 1 3 * 1,
   m 2 0 * p.x + m 2 1 * p.y + m 2 2 * p.z + m 2 3 * 1⟩

/-- `&Transform * Vector`: multiply by the column `[[x],[y],[z],[0]]`. -/
def mulVec (m : Mat4) (v : Vec) : Vec :=
  ⟨m 0 0 * v.x + m 0 1 * v.y + m 0 2 * v.z + m 0 3 * 0,
   m 1 0 * v.x + m 1 1 * v.y + m 1 2 * v.z + m 1 3 * 0,
   m 2 0 * v.x + m 2 1 * v.y + m 2 2 * v.z + m 2 3 * 0⟩

/-- `&Matrix<3,3> * column vector`, as used by `Shape::normal_at`. -/
def mulVec3 (m : Mat3) (v : Vec) : Vec :=
  ⟨m 0 0 * v.x + m 0 1 * v.y + m 0 2 * v.z,
   m 1 0 * v.x + m 1 1 * v.y + m 1 2 * v.z,
   m 2 0 * v.x + m 2 1 * v.y + m 2 2 * v.z⟩

/-! ## Transformations (transformations.rs)

A `Transform` wraps a 4×4 matrix whose last row is `[0,0,0,1]`; it is
modelled directly as the matrix.  The rotation constructors fill entries
with `cos r` / `sin r`; those transcendental values are taken as the
parameters `c` / `s`. -/

/-- `translation(x, y, z)`: the rows `[1,0,0,x] / [0,1,0,y] / [0,0,1,z] /
[0,0,0,1]`, tabulated entry by entry. -/
def translationM (x y z : ℚ) : Mat4
  | 0, 0 => 1 | 0, 1 => 0 | 0, 2 => 0 | 0, 3 => x
  | 1, 0 => 0 | 1, 1 => 1 | 1, 2 => 0 | 1, 3 => y
  | 2, 0 => 0 | 2, 1 => 0 | 2, 2 => 1 | 2, 3 => z
  | 3, 0 => 0 | 3, 1 => 0 | 3, 2 => 0 | 3, 3 => 1

/-- `scaling(x, y, z)`: rows `[x,0,0,0] / [0,y,0,0] / [0,0,z,0] / [0,0,0,1]`. -/
def scalingM (x y z : ℚ) : Mat4
  | 0, 0 => x | 0, 1 => 0 | 0, 2 => 0 | 0, 3 => 0
  | 1, 0 => 0 | 1, 1 => y | 1, 2 => 0 | 1, 3 => 0
  | 2, 0 => 0 | 2, 1 => 0 | 2, 2 => z | 2, 3 => 0
  | 3, 0 => 0 | 3, 1 => 0 | 3, 2 => 0 | 3, 3 => 1

/-- `rotation_x(r)`, with `c`/`s` standing for `r.cos()`/`r.sin()`: rows
`[1,0,0,0] / [0,c,-s,0] / [0,s,c,0] / [0,0,0,1]`. -/
def rotationXM (c s : ℚ) : Mat4
  | 0, 0 => 1 | 0, 1 => 0 | 0, 2 => 0  | 0, 3 => 0
  | 1, 0 => 0 | 1, 1 => c | 1, 2 => -s | 1, 3 => 0
  | 2, 0 => 0 | 2, 1 => s | 2, 2 => c  | 2, 3 => 0
  | 3, 0 => 0 | 3, 1 => 0 | 3, 2 => 0  | 3, 3 => 1

/-- `Builder::new()`: the accumulated transform starts at `IDENTITY`. -/
def builderNew : Mat4 := identityM

/-- `Builder::translation`: the new operation is multiplied on the left of
the accumulated transform (`&translation(x, y, z) * &self.current`). -/
def builderTranslation (current : Mat4) (x y z : ℚ) : Mat4 :=
  mul4 (translationM x y z) current

/-- `Builder::scaling`. -/
def builderScaling (current : Mat4) (x y z : ℚ) : Mat4 :=
  mul4 (scalingM x y z) current

/-- `Builder::rotation_x` (cosine and sine of the angle as parameters). -/
def builderRotationX (current : Mat4) (c s : ℚ) : Mat4 :=
  mul4 (rotationXM c s) current

/-- The transform built by `Builder::new().translation(tx, ty, tz)
.rotation_x(r).scaling(sx, sy, sz).transform()`, the chain named by the
claim about the builder's composition order. -/
def builderTRS (tx ty tz c s sx sy sz : ℚ) : Mat4 :=
  builderScaling (builderRotationX (builderTranslation builderNew tx ty tz) c s) sx sy sz

/-! ## An IEEE-754 value model for the zero-vector normalization claim

`Tuple::normalize` divides componentwise by the magnitude with plain `f64`
division, so normalizing the zero vector divides `0.0` by `0.0`.  To state
that faithfully a small model of `f64` special values is used: a float is
an exact finite value, an infinity, or NaN.  Signed zero is not modelled
(no operation below distinguishes `-0.0`, and the claim's inputs are exact
`0.0`).  The square root is again a parameter; the claim only needs the
IEEE-mandated `sqrt(+0.0) = +0.0`. -/

/-- An `f64` value: finite (exact), `±∞`, or NaN. -/
inductive FP where
  | finite (q : ℚ)
  | posInf
  | negInf
  | nan
deriving DecidableEq, Repr

/-- IEEE `f64` addition on the model (NaN propagates, `∞ + -∞ = NaN`). -/
def FP.add : FP → FP → FP
  | nan, _ => nan
  | _, nan => nan
  | posInf, negInf => nan
  | negInf, posInf => nan
  | posInf, _ => posInf
  | _, posInf => posInf
  | negInf, _ => negInf
  | _, negInf => negInf
  | finite a, finite b => finite (a + b)

/-- IEEE `f64` multiplication on the model (`0 * ∞ = NaN`). -/
def FP.mul : FP → FP → FP
  | nan, _ => nan
  | _, nan => nan
  | finite a, finite b => finite (a * b)
  | finite a, posInf => if a = 0 then nan else if 0 < a then posInf else negInf
  | posInf, finite b => if b = 0 then nan else if 0 < b then posInf else negInf
  | finite a, negInf => if a = 0 then nan else if 0 < a then negInf else posInf
  | negInf, finite b => if b = 0 then nan else if 0 < b then negInf else posInf
  | posInf, posInf => posInf
  | negInf, negInf => posInf
  | posInf, negInf => negInf
  | negInf, posInf => negInf

/-- IEEE `f64` division on the model: in particular `0.0 / 0.0 = NaN` and
`x / 0.0 = ±∞` for finite nonzero `x`. -/
def FP.div : FP → FP → FP
  | nan, _ => nan
  | _, nan => nan
  | finite a, finite b =>
    if b = 0 then (if a = 0 then nan else if 0 < a then posInf else negInf)
    else finite (a / b)
  | finite _, posInf => finite 0
  | finite _, negInf => finite 0
  | posInf, finite b => if 0 ≤ b then posInf else negInf
  | negInf, finite b => if 0 ≤ b then negInf else posInf
  | _, _ => nan

/-- `Tuple` (tuples.rs) over the IEEE value model. -/
structure TupleFP where
  x : FP
  y : FP
  z : FP
  w : FP
deriving DecidableEq, Repr

/-- `Tuple::magnitude`: `sqrt(x*x + y*y + z*z + w*w)`, the square root as
the parameter `sq`. -/
def TupleFP.magnitude (sq : FP → FP) (t : TupleFP) : FP :=
  sq ((((t.x.mul t.x).add (t.y.mul t.y)).add (t.z.mul t.z)).add (t.w.mul t.w))

/-- `Tuple / f64`: componentwise division. -/
def TupleFP.divScalar (t : TupleFP) (s : FP) : TupleFP :=
  ⟨t.x.div s, t.y.div s, t.z.div s, t.w.div s⟩

/-- `Tuple::normalize`: `*self / self.magnitude()`.  Total — no error path
exists in the source signature. -/
def TupleFP.normalize (sq : FP → FP) (t : TupleFP) : TupleFP :=
  t.divScalar (t.magnitude sq)

/-- `Vector::new(dx, dy, dz)`: a tuple with weight `0.0`. -/
def vectorFP (dx dy dz : ℚ) : TupleFP :=
  ⟨FP.finite dx, FP.finite dy, FP.finite dz, FP.finite 0⟩

/-- `Vector::normalize`, which just wraps `Tuple::normalize` of the inner
tuple. -/
def vectorNormalizeFP (sq : FP → FP) (v : TupleFP) : TupleFP :=
  v.normalize sq

/-! ## Rays (rays.rs) -/

/-- `Ray`: origin and direction. -/
structure Ray where
  origin : Pt
  direction : Vec
deriving DecidableEq, Repr

/-- `Ray::position(t) = origin + direction * t`. -/
def Ray.position (r : Ray) (t : ℚ) : Pt := r.origin.addVec (r.direction.smul t)

/-- `Ray::transformed`: transform origin (point path) and direction (vector
path). -/
def Ray.transformed (r : Ray) (m : Mat4) : Ray :=
  ⟨mulPt m r.origin, mulVec m r.direction⟩

/-! ## Patterns (patterns/mod.rs, patterns/stripes.rs)

Only the stripe pattern model is embedded (the other kinds are irrelevant
to every claim; `lighting` only ever calls the sample function). -/

/-- `Stripes` (patterns/stripes.rs): two alternating colors. -/
structure Stripes where
  a : Color
  b : Color
deriving DecidableEq, Repr

/-- `Stripes::at`: `a` when `point.x.floor() as i64 % 2 == 0` (Rust `%` on
`i64` is truncated remainder, `Int.tmod`). -/
def Stripes.at (m : Stripes) (point : Pt) : Color :=
  if (⌊point.x⌋).tmod 2 = 0 then m.a else m.b

/-- `Pattern` (patterns/mod.rs): a transform, its cached inverse, and the
pattern model. -/
structure Pattern where
  transform : Mat4
  inverse : Mat4
  model : Stripes

/-- `NoInverseTransformError` (patterns/mod.rs). -/
structure NoInverseTransformError where
deriving DecidableEq, Repr

/-- `Pattern::new`: transform and cached inverse start at `IDENTITY`. -/
def Pattern.new (model : Stripes) : Pattern := ⟨identityM, identityM, model⟩

/-- `Pattern::set_transform` (patterns/mod.rs lines 72–76): `?` on the
inverse leaves `self` untouched on error; on success both fields are
assigned.  The post-state is returned together with the error option,
modelling the `&mut self` update. -/
def Pattern.setTransform (p : Pattern) (transform : Mat4) :
    Pattern × Option NoInverseTransformError :=
  match inverse4 transform with
  | none => (p, some ⟨⟩)
  | some inverse => ({ p with transform := transform, inverse := inverse }, none)

/-! ## Materials (materials.rs; fields of the final `Material`)

The retained snapshot of materials.rs lacks the `reflective`,
`transparaency` (sic) and `refractive_index` fields that world.rs and
intersections.rs read.  Modelled from the spec: `Material`: "color,
ambient/diffuse/specular/shininess scalars, optional reflective
coefficient, optional transparency + refractive-index, optional Pattern"
(§3); the missing scalar defaults follow the reference renderer (0, 0 and
1 respectively), the Phong defaults are those of `Material::default` in
materials.rs. -/

/-- The material record, spelled with the source's field names (including
the `transparaency` typo used throughout world.rs). -/
structure Material where
  color : Color
  ambient : ℚ
  diffuse : ℚ
  specular : ℚ
  shininess : ℚ
  reflective : ℚ
  transparaency : ℚ
  refractive_index : ℚ
  pattern : Option Pattern

/-- `Material::default()`. -/
def Material.default : Material :=
  ⟨⟨1, 1, 1⟩, 1/10, 9/10, 9/10, 200, 0, 0, 1, none⟩

/-! ## Shapes (shapes/mod.rs, shapes/spheres.rs, shapes/planes.rs) -/

/-- The closed set of shape kinds (`dyn DynamicModel`): `Sphere`, `Plane`. -/
inductive ShapeModel where
  | sphere
  | plane
deriving DecidableEq, Repr

/-- `NoInverseError` (matrices.rs / shapes/mod.rs / camera.rs). -/
structure NoInverseError where
deriving DecidableEq, Repr

/-- `Shape` (shapes/mod.rs): transform, cached inverse, material, model. -/
structure Shape where
  transform : Mat4
  inverse : Mat4
  material : Material
  model : ShapeModel

/-- `Shape::new`: transform and cached inverse start at `IDENTITY`, default
material. -/
def Shape.new (model : ShapeModel) : Shape :=
  ⟨identityM, identityM, Material.default, model⟩

/-- `Shape::set_transform` (shapes/mod.rs lines 112–117): compute the
inverse first (`?` on failure leaves `self` untouched), then assign both
fields. -/
def Shape.setTransform (s : Shape) (transform : Mat4) :
    Shape × Option NoInverseError :=
  match inverse4 transform with
  | none => (s, some ⟨⟩)
  | some inverse => ({ s with transform := transform, inverse := inverse }, none)

/-- `Sphere::local_intersect` (shapes/spheres.rs): quadratic for the unit
sphere at the origin; no roots when the discriminant is negative, else both
roots in order.  `sq` stands for `f64::sqrt`. -/
def sphereLocalIntersect (sq : ℚ → ℚ) (local_ray : Ray) : List ℚ :=
  let sphere_to_ray := local_ray.origin.sub ⟨0, 0, 0⟩
  let a := local_ray.direction.dot local_ray.direction
  let b := 2 * local_ray.direction.dot sphere_to_ray
  let c := sphere_to_ray.dot sphere_to_ray - 1
  let discriminant := b * b - 4 * a * c
  if discriminant < 0 then []
  else [(-b - sq discriminant) / (2 * a), (-b + sq discriminant) / (2 * a)]

/-- `Plane::local_intersect` (shapes/planes.rs): parallel rays (|dy| below
`PARALLEL_EPSILON`) miss, otherwise `t = -origin.y / direction.y`. -/
def planeLocalIntersect (local_ray : Ray) : List ℚ :=
  if |local_ray.direction.y| < PARALLEL_EPSILON then []
  else [-local_ray.origin.y / local_ray.direction.y]

/-- `local_normal_at` per kind.  The plane's constant normal is from
shapes/planes.rs; the sphere's is modelled from the spec: "Local normal =
`local_point - origin`" (§4.3), its implementation being `todo!()` in the
retained snapshot. -/
def ShapeModel.localNormalAt : ShapeModel → Pt → Vec
  | .sphere, local_point => local_point.sub ⟨0, 0, 0⟩
  | .plane, _ => ⟨0, 1, 0⟩

/-- Kind dispatch of `local_intersect`. -/
def ShapeModel.localIntersect (sq : ℚ → ℚ) : ShapeModel → Ray → List ℚ
  | .sphere, r => sphereLocalIntersect sq r
  | .plane, r => planeLocalIntersect r

/-- `Shape::intersect`: transform the ray by the cached inverse, delegate
to the model, wrap in a sorted `Intersections` collection (only the `t`
values are kept; the owning shape is tracked by index at the world level). -/
def Shape.intersect (sq : ℚ → ℚ) (s : Shape) (ray : Ray) : List ℚ :=
  let local_ray := ray.transformed s.inverse
  (s.model.localIntersect sq local_ray).insertionSort (· ≤ ·)

/-- `Shape::normal_at` (shapes/mod.rs lines 130–147): local point via the
cached inverse, local normal via the model, back to world space through the
transposed upper-left 3×3 block (`inverse.submatrix(3, 3)`) of the inverse,
then renormalize. -/
def Shape.normalAt (sq : ℚ → ℚ) (s : Shape) (point : Pt) : Vec :=
  let local_point := mulPt s.inverse point
  let local_normal := s.model.localNormalAt local_point
  let world_normal := mulVec3 (transpose3 (submatrix4 s.inverse 3 3)) local_normal
  world_normal.normalize sq

/-- `Pattern::at_shape` (patterns/mod.rs lines 78–82): map the world point
through the shape's inverse, then the pattern's inverse, then sample. -/
def patternAtShape (p : Pattern) (shape : Shape) (point : Pt) : Color :=
  let shape_point := mulPt shape.inverse point
  let pattern_point := mulPt p.inverse shape_point
  p.model.at pattern_point

/-! ## Lights and lighting (lights.rs, materials.rs) -/

/-- `PointLight`. -/
structure PointLight where
  position : Pt
  intensity : Color
deriving DecidableEq, Repr

/-- `lighting` (materials.rs): Phong shading with optional pattern, shadow
short-circuit after the ambient term.  `pw` stands for `f64::powf` (used at
`material.shininess`). -/
def lighting (sq : ℚ → ℚ) (pw : ℚ → ℚ → ℚ) (material : Material) (object : Shape)
    (light : PointLight) (point : Pt) (eyev normal : Vec) (in_shadow : Bool) : Color :=
  let color := match material.pattern with
    | some pattern => patternAtShape pattern object point
    | none => material.color
  let effective_color := color.mul light.intensity
  let lightv := (light.position.sub point).normalize sq
  let ambient := effective_color.smul material.ambient
  if in_shadow then ambient
  else
    let light_dot_normal := lightv.dot normal
    let ds :=
      if light_dot_normal < 0 then (Color.default, Color.default)
      else
        let diffuse := (effective_color.smul material.diffuse).smul light_dot_normal
        let reflectv := lightv.neg.reflect normal
        let reflect_dot_eye := reflectv.dot eyev
        let specular :=
          if reflect_dot_eye ≤ 0 then Color.default
          else (light.intensity.smul material.specular).smul (pw reflect_dot_eye material.shininess)
        (diffuse, specular)
    (ambient.add ds.1).add ds.2

/-! ## Camera (camera.rs)

`Camera::new` derives `half_width`/`half_height`/`pixel_size` from
`tan(field_of_view / 2)`; the tangent value is passed in as the parameter
`halfView` (a transcendental `f64` call).  The `usize` sizes become `ℕ` and
the aspect is their exact quotient. -/

/-- `PixelOutOfBoundsError` (canvas.rs, shared by `Camera::ray_for_pixel`). -/
structure PixelOutOfBoundsError where
deriving DecidableEq, Repr

/-- `Camera`. -/
structure Camera where
  hsize : ℕ
  vsize : ℕ
  field_of_view : ℚ
  transform : Mat4
  inverse : Mat4
  half_width : ℚ
  half_height : ℚ
  pixel_size : ℚ

/-- `Camera::new(hsize, vsize, field_of_view)`; `halfView` stands for the
`(field_of_view / 2.0).tan()` call. -/
def Camera.new (hsize vsize : ℕ) (field_of_view halfView : ℚ) : Camera :=
  let aspect : ℚ := (hsize : ℚ) / (vsize : ℚ)
  let hw : ℚ := if 1 ≤ aspect then halfView else halfView * aspect
  let hh : ℚ := if 1 ≤ aspect then halfView / aspect else halfView
  { hsize := hsize, vsize := vsize, field_of_view := field_of_view,
    transform := identityM, inverse := identityM,
    half_width := hw, half_height := hh,
    pixel_size := hw * 2 / (hsize : ℚ) }

/-- `Camera::ray_for_pixel(x, y)` (camera.rs lines 53–69).  The bounds test
is the source's `x > self.hsize || y > self.vsize`. -/
def Camera.rayForPixel (sq : ℚ → ℚ) (c : Camera) (x y : ℕ) :
    Except PixelOutOfBoundsError Ray :=
  if x > c.hsize ∨ y > c.vsize then .error ⟨⟩
  else
    let xoffset := ((x : ℚ) + 1/2) * c.pixel_size
    let yoffset := ((y : ℚ) + 1/2) * c.pixel_size
    let world_x := c.half_width - xoffset
    let world_y := c.half_height - yoffset
    let pixel := mulPt c.inverse ⟨world_x, world_y, -1⟩
    let origin := mulPt c.inverse ⟨0, 0, 0⟩
    let direction := (pixel.sub origin).normalize sq
    .ok ⟨origin, direction⟩

/-- `Camera::set_transform` (camera.rs lines 71–76): `?` on the inverse
leaves the camera untouched on error, else both fields are assigned. -/
def Camera.setTransform (c : Camera) (transform : Mat4) :
    Camera × Option NoInverseError :=
  match inverse4 transform with
  | none => (c, some ⟨⟩)
  | some inverse => ({ c with transform := transform, inverse := inverse }, none)

/-! ## World (world.rs)

Shapes live in the world's object list; an intersection records its `t`
and the index of its shape (the `&Shape` reference, compared by address in
the source, becomes that index). -/

/-- `RECURSION_DEPTH` (world.rs): the default recursion budget. -/
def RECURSION_DEPTH : ℕ := 5

/-- A world-level intersection: `t` plus the owning shape's index. -/
structure Itx where
  t : ℚ
  obj : ℕ
deriving DecidableEq, Repr

/-- `World`: objects and the single point light. -/
structure World where
  objects : List Shape
  light : PointLight

/-- Placeholder shape for out-of-range index lookups (never reached: every
stored index points into `objects`). -/
def defaultShape : Shape := Shape.new .sphere

/-- `World::intersect`: every shape's intersections (each shape tagged by
its index), merged and sorted ascending by `t` (`Intersections::new`). -/
def World.intersectRay (sq : ℚ → ℚ) (w : World) (ray : Ray) : List Itx :=
  (w.objects.enum.flatMap fun io =>
      (Shape.intersect sq io.2 ray).map fun t => ⟨t, io.1⟩).insertionSort
    (fun a b => a.t ≤ b.t)

/-- The refractive index carried by the shape with a given identity, read
by the n1/n2 walk (`object.material.refractive_index`). -/
def World.refr (w : World) (oid : ℕ) : ℚ :=
  ((w.objects.getD oid defaultShape).material).refractive_index

/-- `HitInfo` (intersections.rs): the per-hit shading context. -/
structure HitInfo where
  t : ℚ
  object : Shape
  point : Pt
  eyev : Vec
  normal : Vec
  inside : Bool
  over_point : Pt
  reflectv : Vec
  n1 : ℚ
  n2 : ℚ
  under_point : Pt

/-- `HitInfo::prepare` (intersections.rs lines 84–143): fails on an
out-of-range hit index (`intersections.get(hit_index)?`); computes the
shading context and the `n1`/`n2` walk (shared with the standalone
refraction model above). -/
def prepare (sq : ℚ → ℚ) (w : World) (intersections : List Itx) (ray : Ray)
    (hit_index : ℕ) : Option HitInfo :=
  match intersections.get? hit_index with
  | none => none
  | some intersection =>
    let t := intersection.t
    let object := w.objects.getD intersection.obj defaultShape
    let point := ray.position t
    let eyev := ray.direction.neg
    let naive_normal := object.normalAt sq point
    let inside := decide (naive_normal.dot eyev < 0)
    let normal := if inside then naive_normal.neg else naive_normal
    let over_point := point.addVec (normal.smul SHADOW_EPSILON)
    let reflectv := ray.direction.reflect normal
    let n12 := n1n2Loop (w.refr) hit_index
      (intersections.map fun i => ⟨i.t, i.obj⟩) 0 []
    let under_point := point.subVec (normal.smul SHADOW_EPSILON)
    some { t := t, object := object, point := point, eyev := eyev,
           normal := normal, inside := inside, over_point := over_point,
           reflectv := reflectv, n1 := n12.1, n2 := n12.2,
           under_point := under_point }

/-- `World::is_shadowed` (world.rs lines 60–72). -/
def World.isShadowed (sq : ℚ → ℚ) (w : World) (point : Pt) : Bool :=
  let light_to_point := w.light.position.sub point
  let distance := light_to_point.magnitude sq
  let direction := light_to_point.normalize sq
  let ray : Ray := ⟨point, direction⟩
  let intersections := w.intersectRay sq ray
  match Intersections.hit (intersections.map Itx.t) with
  | some hit_index => decide ((intersections.getD hit_index ⟨0, 0⟩).t < distance)
  | none => false

mutual

/-- `World::shade_hit` (world.rs lines 33–49): surface lighting plus the
reflected and refracted contributions at the same budget. -/
def World.shadeHit (sq : ℚ → ℚ) (pw : ℚ → ℚ → ℚ) (w : World)
    (hit_info : HitInfo) (remaining : ℕ) : Color :=
  let is_shadowed := w.isShadowed sq hit_info.over_point
  let surface := lighting sq pw hit_info.object.material hit_info.object
    w.light hit_info.point hit_info.eyev hit_info.normal is_shadowed
  let reflected := World.reflectedColor sq pw w hit_info remaining
  let refracted := World.refractedColor sq pw w hit_info remaining
  (surface.add reflected).add refracted
termination_by (remaining, 1)
decreasing_by
· exact Prod.Lex.right remaining (by omega)
· exact Prod.Lex.right remaining (by omega)

/-- `World::color_from` (world.rs lines 51–58): intersect, pick the hit,
prepare the context, shade.  The `.expect("invalid hit index")` cannot
fire (the hit index is always in range); its panic is modelled by the
background color. -/
def World.colorFrom (sq : ℚ → ℚ) (pw : ℚ → ℚ → ℚ) (w : World) (ray : Ray)
    (remaining : ℕ) : Color :=
  let intersections := w.intersectRay sq ray
  match Intersections.hit (intersections.map Itx.t) with
  | none => Color.default
  | some hit_index =>
    match prepare sq w intersections ray hit_index with
    | some hit_info => World.shadeHit sq pw w hit_info remaining
    | none => Color.default
termination_by (remaining, 2)
decreasing_by
· exact Prod.Lex.right remaining (by omega)

/-- `World::reflected_color` (world.rs lines 74–83): black at a spent
budget or a non-reflective material, else one recursive bounce scaled by
`reflective`. -/
def World.reflectedColor (sq : ℚ → ℚ) (pw : ℚ → ℚ → ℚ) (w : World)
    (hit_info : HitInfo) (remaining : ℕ) : Color :=
  if _h : remaining = 0 ∨ hit_info.object.material.reflective = 0 then ⟨0, 0, 0⟩
  else
    let reflect_ray : Ray := ⟨hit_info.over_point, hit_info.reflectv⟩
    let color := World.colorFrom sq pw w reflect_ray (remaining - 1)
    color.smul hit_info.object.material.reflective
termination_by (remaining, 0)
decreasing_by
· exact Prod.Lex.left _ _ (by omega)

/-- `World::refracted_color` (world.rs lines 85–102): black at a spent
budget, an opaque material, or total internal reflection; else the
refracted ray from `under_point`, recursion at `remaining - 1`, scaled by
`transparaency`. -/
def World.refractedColor (sq : ℚ → ℚ) (pw : ℚ → ℚ → ℚ) (w : World)
    (hit_info : HitInfo) (remaining : ℕ) : Color :=
  if _h : remaining = 0 ∨ hit_info.object.material.transparaency = 0 then ⟨0, 0, 0⟩
  else
    let n_ratio := hit_info.n1 / hit_info.n2
    let cos_i := hit_info.eyev.dot hit_info.normal
    let sin2_t := n_ratio * n_ratio * (1 - cos_i * cos_i)
    if 1 < sin2_t then ⟨0, 0, 0⟩
    else
      let cos_t := sq (1 - sin2_t)
      let direction := (hit_info.normal.smul (n_ratio * cos_i - cos_t)).sub
        (hit_info.eyev.smul n_ratio)
      let refract_ray : Ray := ⟨hit_info.under_point, direction⟩
      (World.colorFrom sq pw w refract_ray (remaining - 1)).smul
        hit_info.object.material.transparaency
termination_by (remaining, 0)
decreasing_by
· exact Prod.Lex.left _ _ (by omega)

end

/-- An empty world with the default light, used to instantiate universally
quantified theorems at a concrete scene. -/
def emptyWorld : World := ⟨[], ⟨⟨0, 0, 0⟩, ⟨0, 0, 0⟩⟩⟩

/-- A concrete shading context, used to instantiate universally quantified
theorems. -/
def sampleHitInfo : HitInfo :=
  ⟨0, defaultShape, ⟨0, 0, 0⟩, ⟨0, 0, 0⟩, ⟨0, 0, 0⟩, false,
   ⟨0, 0, 0⟩, ⟨0, 0, 0⟩, 1, 1, ⟨0, 0, 0⟩⟩

/-- A scaling transform with determinant `10⁻⁶`: far below
`EQUALITY_EPSILON` in magnitude, yet nonzero — it separates the exact
`determinant == 0` test from an epsilon-tolerant one. -/
def tinyDetM : Mat4 := scalingM (1/1000000) 1 1

/-! ## Fuel-instrumented shading recursion

To state termination of the `color_from` / `shade_hit` / `reflected_color`
/ `refracted_color` recursion as a theorem, the same four bodies are
instrumented with an explicit fuel counter that every call consumes one
unit of, with `none` on exhaustion.  A fuel of `3 * remaining + 3` always
suffices (proved below): the call stack between two decrements of
`remaining` is exactly `colorFrom → shadeHit → reflected/refractedColor`,
three frames deep, and both bounce functions return immediately at
`remaining = 0`. -/

mutual

/-- Fuel-instrumented `World::shade_hit`. -/
def World.shadeHitF (sq : ℚ → ℚ) (pw : ℚ → ℚ → ℚ) (w : World)
    (hit_info : HitInfo) (remaining : ℕ) : ℕ → Option Color
  | 0 => none
  | fuel + 1 =>
    let is_shadowed := w.isShadowed sq hit_info.over_point
    let surface := lighting sq pw hit_info.object.material hit_info.object
      w.light hit_info.point hit_info.eyev hit_info.normal is_shadowed
    match World.reflectedColorF sq pw w hit_info remaining fuel,
        World.refractedColorF sq pw w hit_info remaining fuel with
    | some reflected, some refracted => some ((surface.add reflected).add refracted)
    | _, _ => none

/-- Fuel-instrumented `World::color_from`. -/
def World.colorFromF (sq : ℚ → ℚ) (pw : ℚ → ℚ → ℚ) (w : World) (ray : Ray)
    (remaining : ℕ) : ℕ → Option Color
  | 0 => none
  | fuel + 1 =>
    let intersections := w.intersectRay sq ray
    match Intersections.hit (intersections.map Itx.t) with
    | none => some Color.default
    | some hit_index =>
      match prepare sq w intersections ray hit_index with
      | some hit_info => World.shadeHitF sq pw w hit_info remaining fuel
      | none => some Color.default

/-- Fuel-instrumented `World::reflected_color`. -/
def World.reflectedColorF (sq : ℚ → ℚ) (pw : ℚ → ℚ → ℚ) (w : World)
    (hit_info : HitInfo) (remaining : ℕ) : ℕ → Option Color
  | 0 => none
  | fuel + 1 =>
    if remaining = 0 ∨ hit_info.object.material.reflective = 0 then some ⟨0, 0, 0⟩
    else
      let reflect_ray : Ray := ⟨hit_info.over_point, hit_info.reflectv⟩
      match World.colorFromF sq pw w reflect_ray (remaining - 1) fuel with
      | some color => some (color.smul hit_info.object.material.reflective)
      | none => none

/-- Fuel-instrumented `World::refracted_color`. -/
def World.refractedColorF (sq : ℚ → ℚ) (pw : ℚ → ℚ → ℚ) (w : World)
    (hit_info : HitInfo) (remaining : ℕ) : ℕ → Option Color
  | 0 => none
  | fuel + 1 =>
    if remaining = 0 ∨ hit_info.object.material.transparaency = 0 then some ⟨0, 0, 0⟩
    else
      let n_ratio := hit_info.n1 / hit_info.n2
      let cos_i := hit_info.eyev.dot hit_info.normal
      let sin2_t := n_ratio * n_ratio * (1 - cos_i * cos_i)
      if 1 < sin2_t then some ⟨0, 0, 0⟩
      else
        let cos_t := sq (1 - sin2_t)
        let direction := (hit_info.normal.smul (n_ratio * cos_i - cos_t)).sub
          (hit_info.eyev.smul n_ratio)
        let refract_ray : Ray := ⟨hit_info.under_point, direction⟩
        match World.colorFromF sq pw w refract_ray (remaining - 1) fuel with
        | some color => some (color.smul hit_info.object.material.transparaency)
        | none => none

end

/-! # Theorems -/

/-- Claim C9: `Vector::normalize` signals no error on the zero vector — it
divides each component by the magnitude `0.0`, so `Vector(0,0,0)` silently
normalizes to all-NaN components (the weight stays NaN too).  The square
root parameter is only constrained by the IEEE-mandated `sqrt(+0.0) =
+0.0`; `normalize` is a total function into tuples (no error channel exists
in its signature). -/
theorem normalize_zero_vector_nan :
    ∀ sq : FP → FP, sq (FP.finite 0) = FP.finite 0 →
      vectorNormalizeFP sq (vectorFP 0 0 0) = ⟨FP.nan, FP.nan, FP.nan, FP.nan⟩ := by
  intro sq h
  simp [vectorNormalizeFP, TupleFP.normalize, TupleFP.magnitude, TupleFP.divScalar,
    vectorFP, FP.mul, FP.add, h, FP.div]

/-- Witness for the zero-vector normalization theorem, instantiated at the
identity as the square-root stand-in (which does map `+0.0` to `+0.0`). -/
theorem normalize_zero_vector_nan_witness :
    (fun x : FP => x) (FP.finite 0) = FP.finite 0 ∧
    vectorNormalizeFP (fun x => x) (vectorFP 0 0 0) = ⟨FP.nan, FP.nan, FP.nan, FP.nan⟩ :=
  ⟨rfl, normalize_zero_vector_nan (fun x => x) rfl⟩

/-- Claim C10: `Intersection`'s `PartialEq` is not symmetric.  On a shared
object it tests `self.t - other.t < EQUALITY_EPSILON` with no absolute
value, so with the same object and `t` values `1.0` and `100.0` the
comparison holds one way (`1 - 100 < ε`) and fails the other
(`100 - 1 ≥ ε`). -/
theorem intersection_eq_not_symmetric :
    (∀ t₁ t₂ o₁ o₂, intersectionEq ⟨t₁, o₁⟩ ⟨t₂, o₂⟩ =
        (decide (t₁ - t₂ < EQUALITY_EPSILON) && (o₁ == o₂))) ∧
    intersectionEq ⟨1, 0⟩ ⟨100, 0⟩ = true ∧
    intersectionEq ⟨100, 0⟩ ⟨1, 0⟩ = false ∧
    ¬ (∀ i₁ i₂, intersectionEq i₁ i₂ = intersectionEq i₂ i₁) := by
  refine ⟨fun t₁ t₂ o₁ o₂ => rfl, ?_, ?_, ?_⟩
  · norm_num [intersectionEq, EQUALITY_EPSILON]
  · norm_num [intersectionEq, EQUALITY_EPSILON]
  · intro h
    have h2 := h ⟨1, 0⟩ ⟨100, 0⟩
    norm_num [intersectionEq, EQUALITY_EPSILON] at h2

/-- Claim C4, counterexample: the claim reads the chain
`translate().rotate().scale()` as world-space order "scale, then rotate,
then translate", i.e. `T∘R∘S`.  The builder multiplies every new operation
on the left of the accumulated transform, so the chain is really `S∘R∘T`:
at translation `(1,0,0)`, the identity rotation (`cos = 1`, `sin = 0`),
scaling `(2,2,2)` and the point `(1,0,0)`, the built transform yields
`(4,0,0)` whereas the claim's order yields `(3,0,0)`. -/
theorem builder_order_counterexample :
    mulPt (builderTRS 1 0 0 1 0 2 2 2) ⟨1, 0, 0⟩ ≠
      mulPt (translationM 1 0 0) (mulPt (rotationXM 1 0) (mulPt (scalingM 2 2 2) ⟨1, 0, 0⟩)) := by
  have h1 : mulPt (builderTRS 1 0 0 1 0 2 2 2) ⟨1, 0, 0⟩ = ⟨4, 0, 0⟩ := by
    simp [builderTRS, builderScaling, builderRotationX, builderTranslation, builderNew,
      mul4, mulPt, identityM, translationM, scalingM, rotationXM]
    norm_num
  have h2 : mulPt (translationM 1 0 0) (mulPt (rotationXM 1 0) (mulPt (scalingM 2 2 2) ⟨1, 0, 0⟩))
      = ⟨3, 0, 0⟩ := by
    simp [mulPt, translationM, scalingM, rotationXM]
    norm_num
  rw [h1, h2]
  simp

/-- Claim C4, amended: the Builder composes successive operations so that
each newly added operation is applied *after* the previously accumulated
transform; hence for all translation, rotation, and scaling parameters, the
transform built by `translate().rotate().scale()` applied to any point
equals applying, in world-space order, translate first, then rotate, then
scale. -/
theorem builder_new_op_applied_after :
    ∀ (tx ty tz c s sx sy sz : ℚ) (p : Pt),
      mulPt (builderTRS tx ty tz c s sx sy sz) p =
        mulPt (scalingM sx sy sz) (mulPt (rotationXM c s) (mulPt (translationM tx ty tz) p)) := by
  intro tx ty tz c s sx sy sz p
  simp only [builderTRS, builderScaling, builderRotationX, builderTranslation, builderNew,
    mul4, mulPt, identityM, translationM, scalingM, rotationXM, Pt.mk.injEq]
  simp
  refine ⟨by ring, by ring, by ring⟩

/-- Claim C5: `Matrix<4,4>::inverse` fails precisely when the determinant
equals `0` by exact comparison, and otherwise returns the
adjugate-over-determinant matrix (entry `(i, j)` is `cofactor(j, i) /
determinant`).  The comparison is not epsilon-tolerant: the scaling
transform with determinant `10⁻⁶` — nonzero but far below
`EQUALITY_EPSILON` in magnitude — still inverts. -/
theorem matrix_inverse_exact_det_zero :
    (∀ m : Mat4, inverse4 m =
        if det4 m = 0 then none else some fun i j => cofactor4 m j i / det4 m) ∧
    (∀ m : Mat4, inverse4 m = none ↔ det4 m = 0) ∧
    det4 tinyDetM ≠ 0 ∧ |det4 tinyDetM| < EQUALITY_EPSILON ∧
    (inverse4 tinyDetM).isSome = true := by
  have hdet : det4 tinyDetM = 1/1000000 := by
    simp [tinyDetM, det4, cofactor4, minor4, det3, cofactor3, minor3, det2, cofactor2,
      minor2, submatrix4, submatrix3, submatrix2, skip4, skip3, scalingM]
  have hne : det4 tinyDetM ≠ 0 := by
    rw [hdet]
    norm_num
  have habs : |det4 tinyDetM| < EQUALITY_EPSILON := by
    rw [hdet, EQUALITY_EPSILON, abs_of_pos (by norm_num)]
    norm_num
  refine ⟨fun m => rfl, fun m => ?_, hne, habs, ?_⟩
  · simp only [inverse4]
    split_ifs with h <;> simp [h]
  · simp [inverse4, hdet]

/-- Claim C3 (code bug): `ray_for_pixel` is claimed to fail for every pixel
outside `[0,hsize) × [0,vsize)`, but the source tests `x > self.hsize || y >
self.vsize`, so the out-of-bounds coordinate `x = hsize` is accepted: for an
11×11 camera, pixel `(11, 0)` yields `Ok` (only `x = 12` starts failing),
for any field of view, any `tan` value and any square root. -/
theorem ray_for_pixel_bounds_bug :
    ∀ (fov halfView : ℚ) (sq : ℚ → ℚ),
      (Camera.new 11 11 fov halfView).hsize = 11 ∧
      ((Camera.new 11 11 fov halfView).rayForPixel sq 11 0).isOk = true ∧
      ((Camera.new 11 11 fov halfView).rayForPixel sq 12 0).isOk = false := by
  intro fov halfView sq
  refine ⟨rfl, ?_, ?_⟩
  · simp [Camera.new, Camera.rayForPixel, Except.isOk, Except.toBool]
  · simp [Camera.new, Camera.rayForPixel, Except.isOk, Except.toBool]

/-- Mapping the containment map of the `prepare` loop to its object
identities turns one loop iteration into one step of the specification's
containment stack. -/
theorem map_snd_containersStep (cs : List (ℕ × ℕ)) (index o : ℕ) :
    (containersStep cs index o).map Prod.snd = specStackStep (cs.map Prod.snd) o := by
  have hc : ((cs.map Prod.snd).any fun x => x == o) = (cs.any fun e => e.2 == o) := by
    induction cs with
    | nil => rfl
    | cons a l ih => simp [List.any_cons, ih]
  simp only [containersStep, specStackStep, hc]
  split_ifs with h
  · rw [List.eraseP_map]
    rfl
  · simp

/-- The `last_key_value` read of the loop agrees with the top-of-stack read
of the specification's stack. -/
theorem topRefractive_eq_specTop (refr : ℕ → ℚ) (cs : List (ℕ × ℕ)) :
    topRefractive refr cs = specTop refr (cs.map Prod.snd) := by
  simp only [topRefractive, specTop, List.getLast?_map]
  cases cs.getLast? <;> rfl

/-- The `prepare` loop, started at any index and container state, computes
the specification's walk of the remaining prefix up to the hit index. -/
theorem n1n2Loop_eq_spec (refr : ℕ → ℚ) (hitIndex : ℕ) :
    ∀ (xs : List Isect) (index : ℕ) (cs : List (ℕ × ℕ)),
      index ≤ hitIndex → hitIndex < index + xs.length →
      n1n2Loop refr hitIndex xs index cs =
        (specTop refr (specWalk (cs.map Prod.snd) (xs.take (hitIndex - index))),
         specTop refr (specStackStep
           (specWalk (cs.map Prod.snd) (xs.take (hitIndex - index)))
           ((xs.getD (hitIndex - index) ⟨0, 0⟩).objId))) := by
  intro xs
  induction xs with
  | nil =>
    intro index cs h1 h2
    revert h2
    simp
    omega
  | cons i rest ih =>
    intro index cs h1 h2
    by_cases h : index = hitIndex
    · subst h
      rw [n1n2Loop, if_pos rfl]
      simp only [Nat.sub_self, List.take_zero, specWalk, List.foldl_nil, List.getD, List.get?]
      rw [topRefractive_eq_specTop, topRefractive_eq_specTop, map_snd_containersStep]
      rfl
    · have hlt : index < hitIndex := lt_of_le_of_ne h1 h
      rw [n1n2Loop, if_neg h]
      rw [ih (index + 1) (containersStep cs index i.objId) (by omega)
        (by simp only [List.length_cons] at h2 ⊢; omega)]
      have hk : hitIndex - index = (hitIndex - (index + 1)) + 1 := by omega
      rw [hk]
      rw [map_snd_containersStep]
      simp [specWalk, List.getD]

/-- Claim C1: for every intersection list and every hit index into it,
`HitInfo::prepare` computes `n1`/`n2` by walking the intersections from
index 0 up to the hit index with an identity-keyed containment stack
(entering an object pushes it, re-encountering the same object by identity
pops it), reading `n1` as the top-of-stack refractive index before
processing the hit intersection and `n2` after, `1.0` whenever the stack is
empty; and an out-of-range hit index makes `prepare` fail.  In particular
three nested glass spheres with refractive indices 1.5/2.0/2.5 pierced by a
ray along their shared axis give the `(n1, n2)` pairs `(1,1.5) (1.5,2)
(2,2.5) (2.5,2.5) (2.5,1.5) (1.5,1)` at the six ordered intersections. -/
theorem prepare_n1n2_walk_spec :
    (∀ (refr : ℕ → ℚ) (xs : List Isect) (hitIndex : ℕ),
        prepareN1N2 refr xs hitIndex =
          if hitIndex < xs.length then some (specN1N2 refr xs hitIndex) else none) ∧
    prepareN1N2 glassRefr glassXs 0 = some (1, 3/2) ∧
    prepareN1N2 glassRefr glassXs 1 = some (3/2, 2) ∧
    prepareN1N2 glassRefr glassXs 2 = some (2, 5/2) ∧
    prepareN1N2 glassRefr glassXs 3 = some (5/2, 5/2) ∧
    prepareN1N2 glassRefr glassXs 4 = some (5/2, 3/2) ∧
    prepareN1N2 glassRefr glassXs 5 = some (3/2, 1) := by
  constructor
  · intro refr xs hitIndex
    unfold prepareN1N2
    split_ifs with h
    · rw [n1n2Loop_eq_spec refr hitIndex xs 0 [] (by omega) (by omega)]
      rfl
    · rfl
  · exact ⟨rfl, rfl, rfl, rfl, rfl, rfl⟩

/-- Correctness bundle for the binary-search loop of `Intersections::hit`
over a list that is nondecreasing under `getD`: an `Ok` result points at an
exact zero, an `Err` result is the boundary between the negative prefix and
the positive suffix. -/
theorem bsLoop_spec (ts : List ℚ)
    (hmono : ∀ i j : ℕ, i ≤ j → j < ts.length → ts.getD i 0 ≤ ts.getD j 0) :
    ∀ (n left right : ℕ), right - left ≤ n → left ≤ right → right ≤ ts.length →
      (∀ j, j < left → ts.getD j 0 < 0) →
      (∀ j, right ≤ j → j < ts.length → 0 < ts.getD j 0) →
      (∀ i, bsLoop ts left right = Sum.inl i → i < ts.length ∧ ts.getD i 0 = 0) ∧
      (∀ i, bsLoop ts left right = Sum.inr i → i ≤ ts.length ∧
        (∀ j, j < i → ts.getD j 0 < 0) ∧
        (∀ j, i ≤ j → j < ts.length → 0 < ts.getD j 0)) := by
  intro n
  induction n with
  | zero =>
    intro left right hn hlr hrlen hl hr
    have hnlt : ¬ left < right := by omega
    rw [bsLoop, dif_neg hnlt]
    constructor
    · intro i hEq
      exact absurd hEq (by simp)
    · intro i hEq
      have hi : left = i := by injection hEq
      subst hi
      exact ⟨by omega, hl, fun j hj₁ hj₂ => hr j (by omega) hj₂⟩
  | succ n ih =>
    intro left right hn hlr hrlen hl hr
    by_cases hlt : left < right
    · have hmidlt : left + (right - left) / 2 < right := by omega
      have hmidge : left ≤ left + (right - left) / 2 := by omega
      rw [bsLoop, dif_pos hlt]
      by_cases hneg : ts.getD (left + (right - left) / 2) 0 < 0
      · rw [if_pos hneg]
        refine ih (left + (right - left) / 2 + 1) right (by omega) (by omega) hrlen
          (fun j hj => ?_) hr
        by_cases hjl : j < left
        · exact hl j hjl
        · calc ts.getD j 0 ≤ ts.getD (left + (right - left) / 2) 0 :=
                hmono j _ (by omega) (by omega)
            _ < 0 := hneg
      · rw [if_neg hneg]
        by_cases hpos : 0 < ts.getD (left + (right - left) / 2) 0
        · rw [if_pos hpos]
          refine ih left (left + (right - left) / 2) (by omega) (by omega) (by omega) hl
            (fun j hj₁ hj₂ => ?_)
          calc (0 : ℚ) < ts.getD (left + (right - left) / 2) 0 := hpos
            _ ≤ ts.getD j 0 := hmono _ j (by omega) hj₂
        · rw [if_neg hpos]
          have hz : ts.getD (left + (right - left) / 2) 0 = 0 :=
            le_antisymm (not_lt.1 hpos) (not_lt.1 hneg)
          constructor
          · intro i hEq
            have hi : left + (right - left) / 2 = i := by injection hEq
            subst hi
            exact ⟨by omega, hz⟩
          · intro i hEq
            exact absurd hEq (by simp)
    · rw [bsLoop, dif_neg hlt]
      constructor
      · intro i hEq
        exact absurd hEq (by simp)
      · intro i hEq
        have hi : left = i := by injection hEq
        subst hi
        exact ⟨by omega, hl, fun j hj₁ hj₂ => hr j (by omega) hj₂⟩

/-- Claim C2: over an ascending-by-`t` sorted intersection list,
`Intersections::hit` returns an index of an intersection whose `t` is the
least value `≥ 0`, and returns `None` exactly when every `t` is negative
(in particular when the list is empty); over `t` values `[5, 7, -3, 2]` it
returns index 1 of the sorted list, whose `t` is `2`. -/
theorem intersections_hit_spec :
    (∀ ts : List ℚ, ts.Sorted (· ≤ ·) →
      (∀ i, Intersections.hit ts = some i → i < ts.length ∧ 0 ≤ ts.getD i 0 ∧
        ∀ j, j < ts.length → 0 ≤ ts.getD j 0 → ts.getD i 0 ≤ ts.getD j 0) ∧
      (Intersections.hit ts = none ↔ ∀ j, j < ts.length → ts.getD j 0 < 0)) ∧
    Intersections.hit (intersectionsNew [5, 7, -3, 2]) = some 1 ∧
    (intersectionsNew [5, 7, -3, 2]).getD 1 0 = 2 := by
  refine ⟨?_, ?_, ?_⟩
  · intro ts hs
    have hmono : ∀ i j : ℕ, i ≤ j → j < ts.length → ts.getD i 0 ≤ ts.getD j 0 := by
      intro i j hij hj
      rcases eq_or_lt_of_le hij with rfl | hlt
      · exact le_refl _
      · have hi : i < ts.length := lt_trans hlt hj
        rw [List.getD_eq_getElem?_getD, List.getD_eq_getElem?_getD,
          List.getElem?_eq_getElem hi, List.getElem?_eq_getElem hj]
        simpa using hs.rel_get_of_le (a := ⟨i, hi⟩) (b := ⟨j, hj⟩) hij
    have hbundle := bsLoop_spec ts hmono ts.length 0 ts.length (by omega) (by omega)
      (le_refl _) (fun j hj => absurd hj (by omega)) (fun j hj₁ hj₂ => absurd hj₂ (by omega))
    by_cases hemp : ts.isEmpty
    · have hts : ts = [] := List.isEmpty_iff.mp hemp
      subst hts
      constructor
      · intro i hi
        simp [Intersections.hit] at hi
      · simp [Intersections.hit]
    · cases hbs : bsLoop ts 0 ts.length with
      | inl k =>
        have hk := hbundle.1 k hbs
        have hhit : Intersections.hit ts = some k := by
          simp [Intersections.hit, hemp, hbs, hk.1]
        constructor
        · intro i hi
          rw [hhit] at hi
          have hik : k = i := by injection hi
          subst hik
          refine ⟨hk.1, le_of_eq hk.2.symm, fun j hj hj0 => ?_⟩
          rw [hk.2]
          exact hj0
        · rw [hhit]
          constructor
          · intro h
            exact absurd h (by simp)
          · intro hall
            exfalso
            have hcontra := hall k hk.1
            rw [hk.2] at hcontra
            exact absurd hcontra (lt_irrefl 0)
      | inr k =>
        have hk := hbundle.2 k hbs
        by_cases hklt : k < ts.length
        · have hhit : Intersections.hit ts = some k := by
            simp [Intersections.hit, hemp, hbs, hklt]
          constructor
          · intro i hi
            rw [hhit] at hi
            have hik : k = i := by injection hi
            subst hik
            refine ⟨hklt, le_of_lt (hk.2.2 k (le_refl _) hklt), fun j hj hj0 => ?_⟩
            by_cases hjk : j < k
            · exact absurd hj0 (not_le.2 (hk.2.1 j hjk))
            · exact hmono k j (by omega) hj
          · rw [hhit]
            constructor
            · intro h
              exact absurd h (by simp)
            · intro hall
              exact absurd (hall k hklt) (not_lt.2 (le_of_lt (hk.2.2 k (le_refl _) hklt)))
        · have hhit : Intersections.hit ts = none := by
            simp [Intersections.hit, hemp, hbs, hklt]
          constructor
          · intro i hi
            rw [hhit] at hi
            exact absurd hi (by simp)
          · rw [hhit]
            constructor
            · intro _ j hj
              exact hk.2.1 j (by omega)
            · intro _
              rfl
  · norm_num [intersectionsNew, List.insertionSort, List.orderedInsert, Intersections.hit]
    rw [bsLoop]
    norm_num
    rw [bsLoop]
    norm_num
    rw [bsLoop]
    norm_num
    rw [bsLoop]
    norm_num
  · norm_num [intersectionsNew, List.insertionSort, List.orderedInsert]

/-- Witness for the `hit` theorem at the concrete sorted list
`[-3, 2, 5, 7]`: the sortedness hypothesis is discharged by evaluation and
the conclusion is instantiated at the returned index 1 (where `t = 2`). -/
theorem intersections_hit_spec_witness :
    Intersections.hit [(-3 : ℚ), 2, 5, 7] = some 1 ∧
    (1 < ([(-3 : ℚ), 2, 5, 7] : List ℚ).length ∧
      0 ≤ ([(-3 : ℚ), 2, 5, 7] : List ℚ).getD 1 0 ∧
      ∀ j, j < ([(-3 : ℚ), 2, 5, 7] : List ℚ).length →
        0 ≤ ([(-3 : ℚ), 2, 5, 7] : List ℚ).getD j 0 →
        ([(-3 : ℚ), 2, 5, 7] : List ℚ).getD 1 0 ≤ ([(-3 : ℚ), 2, 5, 7] : List ℚ).getD j 0) := by
  have hsorted : ([(-3 : ℚ), 2, 5, 7] : List ℚ).Sorted (· ≤ ·) := by
    norm_num [List.sorted_cons]
  have hhit : Intersections.hit [(-3 : ℚ), 2, 5, 7] = some 1 := by
    norm_num [Intersections.hit]
    rw [bsLoop]
    norm_num
    rw [bsLoop]
    norm_num
    rw [bsLoop]
    norm_num
    rw [bsLoop]
    norm_num
  exact ⟨hhit, (intersections_hit_spec.1 _ hsorted).1 1 hhit⟩

/-- Claim C6: for every hit info and remaining depth,
`World::refracted_color` returns black when `remaining == 0`, when the
material's transparency is 0, or when Snell's law with the ratio `n1/n2`
gives `sin²(θt) > 1` (total internal reflection, with `cos²(θi)` the
squared dot of eye and normal); otherwise it casts the refracted ray from
`under_point`, recurses into `color_from` at `remaining - 1`, and scales
the result by the material's transparency. -/
theorem refracted_color_spec :
    ∀ (sq : ℚ → ℚ) (pw : ℚ → ℚ → ℚ) (w : World) (hi : HitInfo) (remaining : ℕ),
      (remaining = 0 → World.refractedColor sq pw w hi remaining = ⟨0, 0, 0⟩) ∧
      (hi.object.material.transparaency = 0 →
        World.refractedColor sq pw w hi remaining = ⟨0, 0, 0⟩) ∧
      (1 < (hi.n1 / hi.n2) * (hi.n1 / hi.n2) *
          (1 - hi.eyev.dot hi.normal * hi.eyev.dot hi.normal) →
        World.refractedColor sq pw w hi remaining = ⟨0, 0, 0⟩) ∧
      (remaining ≠ 0 → hi.object.material.transparaency ≠ 0 →
        ¬ 1 < (hi.n1 / hi.n2) * (hi.n1 / hi.n2) *
            (1 - hi.eyev.dot hi.normal * hi.eyev.dot hi.normal) →
        ∃ direction : Vec,
          World.refractedColor sq pw w hi remaining =
            (World.colorFrom sq pw w ⟨hi.under_point, direction⟩ (remaining - 1)).smul
              hi.object.material.transparaency) := by
  intro sq pw w hi remaining
  refine ⟨?_, ?_, ?_, ?_⟩
  · intro h
    rw [World.refractedColor, dif_pos (Or.inl h)]
  · intro h
    rw [World.refractedColor, dif_pos (Or.inr h)]
  · intro h
    by_cases houter : remaining = 0 ∨ hi.object.material.transparaency = 0
    · rw [World.refractedColor, dif_pos houter]
    · rw [World.refractedColor, dif_neg houter]
      simp only []
      rw [if_pos h]
  · intro h1 h2 h3
    rw [World.refractedColor, dif_neg (by intro hor; cases hor with
      | inl h => exact h1 h
      | inr h => exact h2 h)]
    simp only []
    rw [if_neg h3]
    exact ⟨_, rfl⟩

/-- Witness for the `refracted_color` theorem: at recursion budget `0` the
result is black, instantiated at the empty world and a concrete hit
context, with the identity standing in for `sqrt` and a first-argument
projection for `powf`. -/
theorem refracted_color_spec_witness :
    World.refractedColor (fun q => q) (fun a _ => a) emptyWorld sampleHitInfo 0 = ⟨0, 0, 0⟩ :=
  (refracted_color_spec (fun q => q) (fun a _ => a) emptyWorld sampleHitInfo 0).1 rfl

/-- Claim C7: the shading recursion terminates with a bounded call depth.
Both bounce functions return black immediately at `remaining = 0`, and a
fuel of `3 * remaining + 3` — one unit consumed by every call among
`color_from`, `shade_hit`, `reflected_color` and `refracted_color` — always
suffices for the fuel-instrumented recursion to produce the (total)
`color_from` value: every cycle of the mutual recursion passes
`remaining - 1`, so no ray, not even between two mutually reflective
parallel mirror planes, can recurse unboundedly. -/
theorem color_from_bounded_recursion :
    ∀ (sq : ℚ → ℚ) (pw : ℚ → ℚ → ℚ) (w : World),
      (∀ hi : HitInfo, World.reflectedColor sq pw w hi 0 = ⟨0, 0, 0⟩) ∧
      (∀ hi : HitInfo, World.refractedColor sq pw w hi 0 = ⟨0, 0, 0⟩) ∧
      (∀ (ray : Ray) (remaining : ℕ),
        World.colorFromF sq pw w ray remaining (3 * remaining + 3) =
          some (World.colorFrom sq pw w ray remaining)) := by
  intro sq pw w
  have base_refl : ∀ hi, World.reflectedColor sq pw w hi 0 = ⟨0, 0, 0⟩ := fun hi => by
    rw [World.reflectedColor, dif_pos (Or.inl rfl)]
  have base_refr : ∀ hi, World.refractedColor sq pw w hi 0 = ⟨0, 0, 0⟩ := fun hi => by
    rw [World.refractedColor, dif_pos (Or.inl rfl)]
  have main : ∀ remaining : ℕ,
      (∀ hi, World.reflectedColorF sq pw w hi remaining (3 * remaining + 1) =
        some (World.reflectedColor sq pw w hi remaining)) ∧
      (∀ hi, World.refractedColorF sq pw w hi remaining (3 * remaining + 1) =
        some (World.refractedColor sq pw w hi remaining)) ∧
      (∀ hi, World.shadeHitF sq pw w hi remaining (3 * remaining + 1 + 1) =
        some (World.shadeHit sq pw w hi remaining)) ∧
      (∀ ray, World.colorFromF sq pw w ray remaining (3 * remaining + 1 + 1 + 1) =
        some (World.colorFrom sq pw w ray remaining)) := by
    intro remaining
    induction remaining with
    | zero =>
      have hrefl : ∀ hi, World.reflectedColorF sq pw w hi 0 (3 * 0 + 1) =
          some (World.reflectedColor sq pw w hi 0) := by
        intro hi
        rw [base_refl hi]
        simp [World.reflectedColorF]
      have hrefr : ∀ hi, World.refractedColorF sq pw w hi 0 (3 * 0 + 1) =
          some (World.refractedColor sq pw w hi 0) := by
        intro hi
        rw [base_refr hi]
        simp [World.refractedColorF]
      have hshade : ∀ hi, World.shadeHitF sq pw w hi 0 (3 * 0 + 1 + 1) =
          some (World.shadeHit sq pw w hi 0) := by
        intro hi
        rw [World.shadeHit]
        simp only [World.shadeHitF, hrefl, hrefr]
      refine ⟨hrefl, hrefr, hshade, ?_⟩
      intro ray
      cases h1 : Intersections.hit ((w.intersectRay sq ray).map Itx.t) with
      | none =>
        rw [World.colorFrom]
        simp only [World.colorFromF, h1]
      | some hit_index =>
        cases h2 : prepare sq w (w.intersectRay sq ray) ray hit_index with
        | none =>
          rw [World.colorFrom]
          simp only [World.colorFromF, h1, h2]
        | some hi =>
          rw [World.colorFrom]
          simp only [World.colorFromF, h1, h2]
          exact hshade hi
    | succ n ih =>
      have hfuel : 3 * (n + 1) = 3 * n + 1 + 1 + 1 := by ring
      have hrefl : ∀ hi, World.reflectedColorF sq pw w hi (n + 1) (3 * (n + 1) + 1) =
          some (World.reflectedColor sq pw w hi (n + 1)) := by
        intro hi
        by_cases hc : hi.object.material.reflective = 0
        · rw [World.reflectedColor, dif_pos (Or.inr hc)]
          simp only [World.reflectedColorF]
          rw [if_pos (Or.inr hc)]
        · have hcond : ¬ (n + 1 = 0 ∨ hi.object.material.reflective = 0) := by
            intro hor
            cases hor with
            | inl h => exact absurd h (Nat.succ_ne_zero n)
            | inr h => exact hc h
          rw [World.reflectedColor, dif_neg hcond]
          simp only [World.reflectedColorF]
          rw [if_neg hcond, hfuel, Nat.add_sub_cancel, ih.2.2.2 ⟨hi.over_point, hi.reflectv⟩]
      have hrefr : ∀ hi, World.refractedColorF sq pw w hi (n + 1) (3 * (n + 1) + 1) =
          some (World.refractedColor sq pw w hi (n + 1)) := by
        intro hi
        by_cases hc : hi.object.material.transparaency = 0
        · rw [World.refractedColor, dif_pos (Or.inr hc)]
          simp only [World.refractedColorF]
          rw [if_pos (Or.inr hc)]
        · have hcond : ¬ (n + 1 = 0 ∨ hi.object.material.transparaency = 0) := by
            intro hor
            cases hor with
            | inl h => exact absurd h (Nat.succ_ne_zero n)
            | inr h => exact hc h
          rw [World.refractedColor, dif_neg hcond]
          simp only [World.refractedColorF]
          rw [if_neg hcond]
          by_cases htir : 1 < (hi.n1 / hi.n2) * (hi.n1 / hi.n2) *
              (1 - hi.eyev.dot hi.normal * hi.eyev.dot hi.normal)
          · rw [if_pos htir, if_pos htir]
          · rw [if_neg htir, if_neg htir, hfuel, Nat.add_sub_cancel, ih.2.2.2]
      have hshade : ∀ hi, World.shadeHitF sq pw w hi (n + 1) (3 * (n + 1) + 1 + 1) =
          some (World.shadeHit sq pw w hi (n + 1)) := by
        intro hi
        rw [World.shadeHit]
        simp only [World.shadeHitF, hrefl, hrefr]
      refine ⟨hrefl, hrefr, hshade, ?_⟩
      intro ray
      cases h1 : Intersections.hit ((w.intersectRay sq ray).map Itx.t) with
      | none =>
        rw [World.colorFrom]
        simp only [World.colorFromF, h1]
      | some hit_index =>
        cases h2 : prepare sq w (w.intersectRay sq ray) ray hit_index with
        | none =>
          rw [World.colorFrom]
          simp only [World.colorFromF, h1, h2]
        | some hi =>
          rw [World.colorFrom]
          simp only [World.colorFromF, h1, h2]
          exact hshade hi
  refine ⟨base_refl, base_refr, fun ray remaining => ?_⟩
  have h3 : 3 * remaining + 3 = 3 * remaining + 1 + 1 + 1 := by ring
  rw [h3]
  exact (main remaining).2.2.2 ray

/-- The identity transform is its own `inverse`, so the constructors'
`transform = inverse = IDENTITY` state is consistent. -/
theorem inverse4_identity : inverse4 identityM = some identityM := by
  have hdet : det4 identityM = 1 := by
    simp [identityM, det4, cofactor4, minor4, det3, cofactor3, minor3, det2, cofactor2,
      minor2, submatrix4, submatrix3, submatrix2, skip4, skip3]
  simp only [inverse4, hdet]
  norm_num
  funext i j
  fin_cases i <;> fin_cases j <;>
    simp [cofactor4, minor4, det3, cofactor3, minor3, det2, cofactor2, minor2,
      submatrix4, submatrix3, submatrix2, skip4, skip3, identityM]

/-- The zero matrix has no inverse (determinant `0`). -/
theorem inverse4_zero : inverse4 (fun _ _ => (0 : ℚ)) = none := by
  simp [inverse4, det4, cofactor4, minor4, det3, cofactor3, minor3, det2, cofactor2,
    minor2, submatrix4, submatrix3, submatrix2, skip4, skip3]

/-- Claim C8: for `Shape`, `Camera` and `Pattern` alike, `set_transform`
with a singular transform returns an error and leaves the whole state —
stored transform and cached inverse — unchanged; with an invertible
transform it updates both fields together.  The consistency invariant "the
cached inverse is the inverse of the stored transform" holds at
construction (`new` uses `IDENTITY` for both) and is preserved by
`set_transform`, the only mutator of these private fields, so no reachable
state has a transform disagreeing with its cached inverse. -/
theorem set_transform_cached_inverse :
    (∀ (s : Shape) (t : Mat4),
      (inverse4 t = none → s.setTransform t = (s, some ⟨⟩)) ∧
      (∀ inv, inverse4 t = some inv →
        s.setTransform t = ({ s with transform := t, inverse := inv }, none)) ∧
      (inverse4 s.transform = some s.inverse →
        inverse4 (s.setTransform t).1.transform = some (s.setTransform t).1.inverse)) ∧
    (∀ (c : Camera) (t : Mat4),
      (inverse4 t = none → c.setTransform t = (c, some ⟨⟩)) ∧
      (∀ inv, inverse4 t = some inv →
        c.setTransform t = ({ c with transform := t, inverse := inv }, none)) ∧
      (inverse4 c.transform = some c.inverse →
        inverse4 (c.setTransform t).1.transform = some (c.setTransform t).1.inverse)) ∧
    (∀ (p : Pattern) (t : Mat4),
      (inverse4 t = none → p.setTransform t = (p, some ⟨⟩)) ∧
      (∀ inv, inverse4 t = some inv →
        p.setTransform t = ({ p with transform := t, inverse := inv }, none)) ∧
      (inverse4 p.transform = some p.inverse →
        inverse4 (p.setTransform t).1.transform = some (p.setTransform t).1.inverse)) ∧
    inverse4 (Shape.new .sphere).transform = some (Shape.new .sphere).inverse ∧
    (∀ (hsize vsize : ℕ) (fov halfView : ℚ),
      inverse4 (Camera.new hsize vsize fov halfView).transform =
        some (Camera.new hsize vsize fov halfView).inverse) ∧
    (∀ m : Stripes, inverse4 (Pattern.new m).transform = some (Pattern.new m).inverse) := by
  refine ⟨fun s t => ⟨?_, ?_, ?_⟩, fun c t => ⟨?_, ?_, ?_⟩, fun p t => ⟨?_, ?_, ?_⟩,
    ?_, fun hsize vsize fov halfView => ?_, fun m => ?_⟩
  · intro h
    simp [Shape.setTransform, h]
  · intro inv h
    simp [Shape.setTransform, h]
  · intro hc
    cases h : inverse4 t with
    | none => simpa [Shape.setTransform, h] using hc
    | some inv => simp [Shape.setTransform, h]
  · intro h
    simp [Camera.setTransform, h]
  · intro inv h
    simp [Camera.setTransform, h]
  · intro hc
    cases h : inverse4 t with
    | none => simpa [Camera.setTransform, h] using hc
    | some inv => simp [Camera.setTransform, h]
  · intro h
    simp [Pattern.setTransform, h]
  · intro inv h
    simp [Pattern.setTransform, h]
  · intro hc
    cases h : inverse4 t with
    | none => simpa [Pattern.setTransform, h] using hc
    | some inv => simp [Pattern.setTransform, h]
  · exact inverse4_identity
  · exact inverse4_identity
  · exact inverse4_identity

/-- Witness for the `set_transform` theorem: the all-zero matrix is
singular, and assigning it to a fresh shape reports the error and returns
the shape unchanged. -/
theorem set_transform_cached_inverse_witness :
    inverse4 (fun _ _ => (0 : ℚ)) = none ∧
    (Shape.new .sphere).setTransform (fun _ _ => 0) = (Shape.new .sphere, some ⟨⟩) :=
  ⟨inverse4_zero, (set_transform_cached_inverse.1 (Shape.new .sphere) _).1 inverse4_zero⟩

end RayTracer
